import Mathlib

/-!
  # Shallow embedding of el-volante-virtual (`elvolantevirtual/main.py`)

  Coordinates are modelled as exact rationals (Python floats idealized),
  the wheel angle as a real number (`math.atan2` is transcendental).
  Python's `ZeroDivisionError` is modelled by returning `none`; the
  `assert` statements inside `Engine.run` are modelled by `Option`:
  `none` means an assertion fired.
-/

/-- `class Pointer(enum.Enum)` — position of the velocity pointer. -/
inductive Pointer
  | HIGH
  | MID
  | LOW
  | NOT_DETECTED
  deriving DecidableEq

/-- `class Wheel(enum.Enum)` — position of the hands on the steering wheel. -/
inductive Wheel
  | LEFT
  | NEUTRAL
  | RIGHT
  | NOT_DETECTED
  deriving DecidableEq

/-- A 2D keypoint with normalized coordinates (possibly outside `[0, 1]`). -/
structure Point where
  x : ℚ
  y : ℚ
  deriving DecidableEq

/-- The keypoint labels consumed by the core (`bodypose.KeypointLabel`);
only the five labels the code reads are modelled. -/
inductive KeypointLabel
  | NOSE
  | LEFT_WRIST
  | RIGHT_WRIST
  | LEFT_HIP
  | RIGHT_HIP
  deriving DecidableEq

/-- `bodypose.Detection` — one person's keypoints for one frame; a label is
absent (`none`) when the keypoint was not observed (`keypoints.get(..., None)`). -/
structure Detection where
  keypoints : KeypointLabel → Option Point

/-- `determine_hip_level`: average y of whichever hip keypoints are present;
`none` when neither hip is available. -/
def determine_hip_level (detection : Detection) : Option ℚ :=
  match detection.keypoints KeypointLabel.LEFT_HIP,
        detection.keypoints KeypointLabel.RIGHT_HIP with
  | none, none => none
  | some left_hip, none => some left_hip.y
  | none, some right_hip => some right_hip.y
  | some left_hip, some right_hip => some ((left_hip.y + right_hip.y) / 2)

/-- The center formula of `determine_center_of_wrists` (also inlined in
`determine_wheel_angle`): coordinate-wise `min + (max - min) / 2`. -/
def center_minmax (l r : Point) : ℚ × ℚ :=
  (min l.x r.x + (max l.x r.x - min l.x r.x) / 2,
   min l.y r.y + (max l.y r.y - min l.y r.y) / 2)

/-- `determine_center_of_wrists`: center between the hands, `none` when
either wrist is missing. -/
def determine_center_of_wrists (detection : Detection) : Option (ℚ × ℚ) :=
  match detection.keypoints KeypointLabel.LEFT_WRIST,
        detection.keypoints KeypointLabel.RIGHT_WRIST with
  | some left_wrist, some right_wrist => some (center_minmax left_wrist right_wrist)
  | _, _ => none

/-- `determine_pointer_position`.  The result is `none` exactly where the
Python code raises `ZeroDivisionError`: all required keypoints present but
`bottom - top == 0` in `(bottom - pointer) / (bottom - top)`.  The float
thresholds `0.66` and `0.33` are idealized as the rationals `66/100` and
`33/100`. -/
def determine_pointer_position (detection : Detection) : Option Pointer :=
  match detection.keypoints KeypointLabel.NOSE with
  | none => some Pointer.NOT_DETECTED
  | some nose =>
    match determine_hip_level detection with
    | none => some Pointer.NOT_DETECTED
    | some bottom =>
      match determine_center_of_wrists detection with
      | none => some Pointer.NOT_DETECTED
      | some center =>
        if bottom - nose.y = 0 then none
        else if (bottom - center.2) / (bottom - nose.y) > 66 / 100 then some Pointer.HIGH
        else if (bottom - center.2) / (bottom - nose.y) > 33 / 100 then some Pointer.MID
        else some Pointer.LOW

/-- `math.atan2` over the reals: the angle of the vector `(x, y)` in
`(-π, π]`, with `atan2 0 0 = 0` as in Python. -/
noncomputable def atan2 (y x : ℝ) : ℝ :=
  if 0 < x then Real.arctan (y / x)
  else if x < 0 then
    (if 0 ≤ y then Real.arctan (y / x) + Real.pi else Real.arctan (y / x) - Real.pi)
  else
    (if 0 < y then Real.pi / 2 else if y < 0 then -(Real.pi / 2) else 0)

/-- `ANGLE_TOLERANCE_FOR_NEUTRALITY` (degrees). -/
def ANGLE_TOLERANCE_FOR_NEUTRALITY : ℝ := 22

/-- `determine_wheel_angle`: the angle (in degrees) of the vector from the
center of the wrists to the `LEFT_WRIST` keypoint, `none` when either wrist
is missing. -/
noncomputable def determine_wheel_angle (detection : Detection) : Option ℝ :=
  match detection.keypoints KeypointLabel.LEFT_WRIST,
        detection.keypoints KeypointLabel.RIGHT_WRIST with
  | some left_wrist, some right_wrist =>
    some (atan2 (-((left_wrist.y - (center_minmax left_wrist right_wrist).2 : ℚ) : ℝ))
                ((left_wrist.x - (center_minmax left_wrist right_wrist).1 : ℚ) : ℝ)
          * 180 / Real.pi)
  | _, _ => none

/-- `determine_wheel_direction`. -/
noncomputable def determine_wheel_direction (detection : Detection) : Wheel :=
  match determine_wheel_angle detection with
  | none => Wheel.NOT_DETECTED
  | some angle_in_degrees =>
    if |angle_in_degrees| ≤ ANGLE_TOLERANCE_FOR_NEUTRALITY then Wheel.NEUTRAL
    else if angle_in_degrees < 0 then Wheel.RIGHT
    else Wheel.LEFT

/-- `determine_player_id_of_the_detection`: player slot from the wrist-center
x-coordinate (`< 0.5` — player 0, else player 1), `none` when the center
cannot be computed. -/
def determine_player_id_of_the_detection (detection : Detection) : Option ℕ :=
  match determine_center_of_wrists detection with
  | none => none
  | some center => if center.1 < 1 / 2 then some 0 else some 1

/-- One iteration of the loop in `split_detections_for_each_player`: the
first detection mapped to a slot wins, later ones are silently discarded. -/
def split_step (slots : Option Detection × Option Detection) (detection : Detection) :
    Option Detection × Option Detection :=
  match determine_player_id_of_the_detection detection with
  | none => slots
  | some 0 =>
    match slots.1 with
    | none => (some detection, slots.2)
    | some _ => slots
  | some _ =>
    match slots.2 with
    | none => (slots.1, some detection)
    | some _ => slots

/-- `split_detections_for_each_player`. -/
def split_detections_for_each_player (detections : List Detection) :
    Option Detection × Option Detection :=
  detections.foldl split_step (none, none)

/-! ## The key activation controller (`Engine`) -/

/-- The mutable state of `Engine`: `activations_by_key` is the insertion-ordered
dict (key, activation count), `active_keys` the set of currently pressed keys. -/
structure EngineState where
  activations_by_key : List (String × Int)
  active_keys : List String
  deriving DecidableEq

/-- `Engine.__init__`: empty activation map, empty pressed set. -/
def EngineState.init : EngineState :=
  { activations_by_key := [], active_keys := [] }

/-- The decay loop: `for key in self.activations_by_key: self.activations_by_key[key] -= 1`. -/
def decay (acts : List (String × Int)) : List (String × Int) :=
  acts.map (fun kv => (kv.1, kv.2 - 1))

/-- One `self.activations_by_key[key] += 1` on the `defaultdict`: an existing
entry is incremented in place, a missing key is appended with value `0 + 1`. -/
def demandOne (acts : List (String × Int)) (key : String) : List (String × Int) :=
  if acts.any (fun kv => decide (kv.1 = key)) then
    acts.map (fun kv => if kv.1 = key then (kv.1, kv.2 + 1) else kv)
  else
    acts ++ [(key, 0 + 1)]

/-- The demand phase of one frame: one increment per non-empty bound key, in
the order the per-player loop encounters them (multiplicity preserved). -/
def demand (acts : List (String × Int)) (desired_keys : List String) : List (String × Int) :=
  desired_keys.foldl demandOne acts

/-- The resolve loop over `self.activations_by_key.items()`, threading
`active_keys` and accumulating the emitted press/release commands in order.
`none` models a fired `assert` (`activation >= 0`, or releasing a key that is
not in `active_keys`). -/
def resolveFold : List (String × Int) → List String → List String → List String →
    Option (List String × List String × List String)
  | [], active_keys, pressed, released => some (active_keys, pressed, released)
  | kv :: rest, active_keys, pressed, released =>
    if kv.2 < 0 then none
    else if kv.2 = 0 then
      (if kv.1 ∈ active_keys then
        resolveFold rest (active_keys.erase kv.1) pressed (released ++ [kv.1])
      else none)
    else if kv.1 ∈ active_keys then
      resolveFold rest active_keys pressed released
    else
      resolveFold rest (active_keys ++ [kv.1]) (pressed ++ [kv.1]) released

/-- `Engine.run`, restricted to the activation update (lines 754-801):
decay, demand (the caller supplies the already-filtered list of demanded
keys for the frame), resolve, then `del` of the released keys.  Returns the
new state together with the press and release commands sent to the keyboard,
or `none` if an internal assertion fired. -/
def Engine.run (s : EngineState) (desired_keys : List String) :
    Option (EngineState × List String × List String) :=
  match resolveFold (demand (decay s.activations_by_key) desired_keys) s.active_keys [] [] with
  | none => none
  | some (active_keys', pressed, released) =>
    some
      ({ activations_by_key :=
           (demand (decay s.activations_by_key) desired_keys).filter
             (fun kv => decide (kv.1 ∉ released)),
         active_keys := active_keys' },
       pressed, released)

/-- Run the engine over a sequence of frames, collecting the
(pressed, released) commands of each frame. -/
def Engine.runTrace : EngineState → List (List String) →
    Option (EngineState × List (List String × List String))
  | s, [] => some (s, [])
  | s, d :: ds =>
    match Engine.run s d with
    | none => none
    | some (s', pressed, released) =>
      match Engine.runTrace s' ds with
      | none => none
      | some (sfin, trace) => some (sfin, (pressed, released) :: trace)

/-- A state reachable from the freshly constructed engine by some sequence
of per-frame updates. -/
def Reachable (s : EngineState) : Prop :=
  ∃ desired_seq out, Engine.runTrace EngineState.init desired_seq = some out ∧ out.1 = s

/-! ## Key-binding validation (`validate_keys` and the gate in `main`) -/

/-- The twelve key-binding options of `main`'s argument parser. -/
structure Args where
  key_for_player1_high : String
  key_for_player1_mid : String
  key_for_player1_low : String
  key_for_player1_left : String
  key_for_player1_neutral : String
  key_for_player1_right : String
  key_for_player2_high : String
  key_for_player2_mid : String
  key_for_player2_low : String
  key_for_player2_left : String
  key_for_player2_neutral : String
  key_for_player2_right : String

/-- The `keys_args` list built inside `validate_keys`, in source order. -/
def keys_args (a : Args) : List (String × String) :=
  [(a.key_for_player1_high, "--key_for_player1_high"),
   (a.key_for_player1_mid, "--key_for_player1_mid"),
   (a.key_for_player1_low, "--key_for_player1_low"),
   (a.key_for_player1_left, "--key_for_player1_left"),
   (a.key_for_player1_neutral, "--key_for_player1_neutral"),
   (a.key_for_player1_right, "--key_for_player1_right"),
   (a.key_for_player2_high, "--key_for_player2_high"),
   (a.key_for_player2_mid, "--key_for_player2_mid"),
   (a.key_for_player2_low, "--key_for_player2_low"),
   (a.key_for_player2_left, "--key_for_player2_left"),
   (a.key_for_player2_neutral, "--key_for_player2_neutral"),
   (a.key_for_player2_right, "--key_for_player2_right")]

/-- `validate_keys`.  `key_by_name` stands for the recognized symbolic key
names of `pynput` (`KEY_BY_NAME`), an external table, so it is a parameter.
Names of length at most one are skipped; each longer unrecognized name
appends one error entry (the Python `repr` quoting of the f-string is
elided).  Returns `none` when there are no errors. -/
def validate_keys (key_by_name : List String) (a : Args) : Option (List String) :=
  let errors := (keys_args a).foldl
    (fun errs ka =>
      if ka.1.length ≤ 1 then errs
      else if ka.1 ∈ key_by_name then errs
      else errs ++ [ka.2 ++ " == " ++ ka.1]) []
  if errors.length > 0 then some errors else none

/-- The two outcomes of `main`'s configuration gate (lines 953-960): either
the key names are invalid and `main` returns 1 before the engine is ever
constructed, or validation passed and the engine starts. -/
inductive MainOutcome
  | invalid_config (errors : List String)
  | engine_started
  deriving DecidableEq

/-- The gate in `main`: `validate_keys` runs before the engine is
constructed and before any frame is processed; a non-`None` result aborts. -/
def main_key_gate (key_by_name : List String) (a : Args) : MainOutcome :=
  match validate_keys key_by_name a with
  | some errs => MainOutcome.invalid_config errs
  | none => MainOutcome.engine_started

/-! ## Specification-side definitions used by individual claims -/

/-- The arithmetic-mean midpoint of the two wrists, as the spec words it
(for the refinement claim about `center_minmax`). -/
def wrist_center_spec (l r : Point) : ℚ × ℚ :=
  ((l.x + r.x) / 2, (l.y + r.y) / 2)

/-- The keys whose activation count is zero after decay + demand: exactly
the keys released (and then deleted) by the resolve phase. -/
def zeroKeys (acts : List (String × Int)) : List String :=
  (acts.filter (fun kv => decide (kv.2 = 0))).map Prod.fst

/-- The keys newly pressed by the resolve phase: positive count and not yet
in the pressed set. -/
def newPressed (acts : List (String × Int)) (active_keys : List String) : List String :=
  (acts.filter (fun kv => decide (0 < kv.2) && decide (kv.1 ∉ active_keys))).map Prod.fst

/-- The engine-state invariant maintained by every per-frame update: all
tracked counts are at least one, keys are unique, and the pressed set is
exactly the tracked key set. -/
def GoodState (s : EngineState) : Prop :=
  (∀ kv ∈ s.activations_by_key, 1 ≤ kv.2) ∧
  (s.activations_by_key.map Prod.fst).Nodup ∧
  s.active_keys.Nodup ∧
  (∀ k, k ∈ s.active_keys ↔ k ∈ s.activations_by_key.map Prod.fst)

/-! ## Concrete example detections used by the per-claim theorems -/

def d_degenerate : Detection :=
  ⟨fun l => match l with
    | KeypointLabel.NOSE => some ⟨1/2, 3/10⟩
    | KeypointLabel.LEFT_HIP => some ⟨2/5, 3/10⟩
    | KeypointLabel.RIGHT_HIP => some ⟨3/5, 3/10⟩
    | KeypointLabel.LEFT_WRIST => some ⟨7/10, 2/5⟩
    | KeypointLabel.RIGHT_WRIST => some ⟨3/10, 2/5⟩⟩

def d_degenerate2 : Detection :=
  ⟨fun l => match l with
    | KeypointLabel.NOSE => some ⟨1/2, 1/5⟩
    | KeypointLabel.LEFT_HIP => some ⟨2/5, 1/5⟩
    | KeypointLabel.RIGHT_HIP => some ⟨3/5, 1/5⟩
    | KeypointLabel.LEFT_WRIST => some ⟨7/10, 2/5⟩
    | KeypointLabel.RIGHT_WRIST => some ⟨3/10, 2/5⟩⟩

def d_full : Detection :=
  ⟨fun l => match l with
    | KeypointLabel.NOSE => some ⟨1/2, 1/10⟩
    | KeypointLabel.LEFT_HIP => some ⟨2/5, 9/10⟩
    | KeypointLabel.RIGHT_HIP => some ⟨3/5, 9/10⟩
    | KeypointLabel.LEFT_WRIST => some ⟨7/10, 1/2⟩
    | KeypointLabel.RIGHT_WRIST => some ⟨3/10, 1/2⟩⟩

def d_left : Detection :=
  ⟨fun l => match l with
    | KeypointLabel.LEFT_WRIST => some ⟨1/10, 1/2⟩
    | KeypointLabel.RIGHT_WRIST => some ⟨3/10, 1/2⟩
    | _ => none⟩

def d_right : Detection :=
  ⟨fun l => match l with
    | KeypointLabel.LEFT_WRIST => some ⟨7/10, 1/2⟩
    | KeypointLabel.RIGHT_WRIST => some ⟨9/10, 1/2⟩
    | _ => none⟩

def d_first_at_03 : Detection :=
  ⟨fun l => match l with
    | KeypointLabel.LEFT_WRIST => some ⟨1/5, 1/2⟩
    | KeypointLabel.RIGHT_WRIST => some ⟨2/5, 1/2⟩
    | _ => none⟩

def d_second_at_03 : Detection :=
  ⟨fun l => match l with
    | KeypointLabel.LEFT_WRIST => some ⟨1/5, 3/5⟩
    | KeypointLabel.RIGHT_WRIST => some ⟨2/5, 3/5⟩
    | _ => none⟩

def offending_entries (key_by_name : List String) (a : Args) : List String :=
  ((keys_args a).filter
      (fun ka => decide (¬ka.1.length ≤ 1 ∧ ka.1 ∉ key_by_name))).map
    (fun ka => ka.2 ++ " == " ++ ka.1)

/-! ## Lemmas about the activation controller -/

lemma mem_zeroKeys {acts : List (String × Int)} {k : String} :
    k ∈ zeroKeys acts ↔ ∃ kv ∈ acts, kv.1 = k ∧ kv.2 = 0 := by
  simp only [zeroKeys, List.mem_map, List.mem_filter, decide_eq_true_eq]
  constructor
  · rintro ⟨kv, ⟨hm, hz⟩, rfl⟩; exact ⟨kv, hm, rfl, hz⟩
  · rintro ⟨kv, hm, rfl, hz⟩; exact ⟨kv, ⟨hm, hz⟩, rfl⟩
lemma mem_newPressed {acts : List (String × Int)} {active_keys : List String} {k : String} :
    k ∈ newPressed acts active_keys ↔
      ∃ kv ∈ acts, kv.1 = k ∧ 0 < kv.2 ∧ kv.1 ∉ active_keys := by
  simp only [newPressed, List.mem_map, List.mem_filter, Bool.and_eq_true, decide_eq_true_eq]
  constructor
  · rintro ⟨kv, ⟨hm, hp, hn⟩, rfl⟩; exact ⟨kv, hm, rfl, hp, hn⟩
  · rintro ⟨kv, hm, rfl, hp, hn⟩; exact ⟨kv, ⟨hm, hp, hn⟩, rfl⟩
lemma zeroKeys_subset {acts : List (String × Int)} {k : String} (h : k ∈ zeroKeys acts) :
    k ∈ acts.map Prod.fst := by
  rcases mem_zeroKeys.mp h with ⟨kv, hm, rfl, -⟩
  exact List.mem_map_of_mem Prod.fst hm
lemma key_unique : ∀ (acts : List (String × Int)), (acts.map Prod.fst).Nodup →
    ∀ kv1, kv1 ∈ acts → ∀ kv2, kv2 ∈ acts → kv1.1 = kv2.1 → kv1 = kv2 := by
  intro acts
  induction acts with
  | nil => intro _ kv1 h1; cases h1
  | cons hd tl ih =>
    intro hnd kv1 h1 kv2 h2 heq
    simp only [List.map_cons, List.nodup_cons] at hnd
    rcases List.mem_cons.mp h1 with h1 | h1
    · rcases List.mem_cons.mp h2 with h2 | h2
      · rw [h1, h2]
      · have : hd.1 ∈ List.map Prod.fst tl := by
          rw [← h1, heq]; exact List.mem_map_of_mem Prod.fst h2
        exact absurd this hnd.1
    · rcases List.mem_cons.mp h2 with h2 | h2
      · have : hd.1 ∈ List.map Prod.fst tl := by
          rw [← h2, ← heq]; exact List.mem_map_of_mem Prod.fst h1
        exact absurd this hnd.1
      · exact ih hnd.2 kv1 h1 kv2 h2 heq
lemma newPressed_congr {rest : List (String × Int)} {a1 a2 : List String}
    (h : ∀ kv ∈ rest, (kv.1 ∈ a1 ↔ kv.1 ∈ a2)) :
    newPressed rest a1 = newPressed rest a2 := by
  unfold newPressed
  congr 1
  apply List.filter_congr
  intro kv hkv
  have hd : decide (kv.1 ∉ a1) = decide (kv.1 ∉ a2) :=
    decide_eq_decide.mpr (not_congr (h kv hkv))
  rw [hd]
lemma resolveFold_cons (kv : String × Int) (rest : List (String × Int))
    (active pressed released : List String) :
    resolveFold (kv :: rest) active pressed released =
      (if kv.2 < 0 then none
      else if kv.2 = 0 then
        (if kv.1 ∈ active then
          resolveFold rest (active.erase kv.1) pressed (released ++ [kv.1])
        else none)
      else if kv.1 ∈ active then
        resolveFold rest active pressed released
      else
        resolveFold rest (active ++ [kv.1]) (pressed ++ [kv.1]) released) := rfl
lemma zeroKeys_cons_zero {kv : String × Int} {rest : List (String × Int)} (h : kv.2 = 0) :
    zeroKeys (kv :: rest) = kv.1 :: zeroKeys rest := by
  simp [zeroKeys, List.filter_cons, h]
lemma zeroKeys_cons_ne {kv : String × Int} {rest : List (String × Int)} (h : ¬kv.2 = 0) :
    zeroKeys (kv :: rest) = zeroKeys rest := by
  simp [zeroKeys, List.filter_cons, h]
lemma newPressed_cons_zero {kv : String × Int} {rest : List (String × Int)}
    {active : List String} (h : kv.2 = 0) :
    newPressed (kv :: rest) active = newPressed rest active := by
  simp [newPressed, List.filter_cons, h]
lemma newPressed_cons_mem {kv : String × Int} {rest : List (String × Int)}
    {active : List String} (h : kv.1 ∈ active) :
    newPressed (kv :: rest) active = newPressed rest active := by
  simp [newPressed, List.filter_cons, h]
lemma newPressed_cons_new {kv : String × Int} {rest : List (String × Int)}
    {active : List String} (hp : 0 < kv.2) (h : kv.1 ∉ active) :
    newPressed (kv :: rest) active = kv.1 :: newPressed rest active := by
  simp [newPressed, List.filter_cons, hp, h]
lemma resolveFold_spec :
    ∀ (acts : List (String × Int)) (active pressed released : List String),
      (∀ kv ∈ acts, 0 ≤ kv.2) →
      (∀ kv ∈ acts, kv.2 = 0 → kv.1 ∈ active) →
      (acts.map Prod.fst).Nodup →
      active.Nodup →
      ∃ active',
        resolveFold acts active pressed released =
          some (active', pressed ++ newPressed acts active, released ++ zeroKeys acts) ∧
        active'.Nodup ∧
        (∀ k, k ∈ active' ↔
          ((k ∈ active ∧ k ∉ zeroKeys acts) ∨ k ∈ newPressed acts active)) := by
  intro acts
  induction acts with
  | nil =>
    intro active pressed released _ _ _ hact
    refine ⟨active, by simp [resolveFold, zeroKeys, newPressed], hact, ?_⟩
    intro k
    simp [zeroKeys, newPressed]
  | cons kv rest ih =>
    intro active pressed released hpos hzero hnd hact
    have hkv_nonneg : 0 ≤ kv.2 := hpos kv (List.mem_cons_self _ _)
    simp only [List.map_cons, List.nodup_cons] at hnd
    have hkv_fresh : kv.1 ∉ rest.map Prod.fst := hnd.1
    have hpos' : ∀ kv' ∈ rest, 0 ≤ kv'.2 := fun kv' h => hpos kv' (List.mem_cons_of_mem _ h)
    by_cases hzkv : kv.2 = 0
    · -- release branch
      have hmem : kv.1 ∈ active := hzero kv (List.mem_cons_self _ _) hzkv
      have hzero' : ∀ kv' ∈ rest, kv'.2 = 0 → kv'.1 ∈ active.erase kv.1 := by
        intro kv' h' hz'
        have hne : kv'.1 ≠ kv.1 := fun hcontra =>
          hkv_fresh (hcontra ▸ List.mem_map_of_mem Prod.fst h')
        exact (List.mem_erase_of_ne hne).mpr (hzero kv' (List.mem_cons_of_mem _ h') hz')
      obtain ⟨active', hres, hnodup', hmemiff⟩ :=
        ih (active.erase kv.1) pressed (released ++ [kv.1]) hpos' hzero' hnd.2
          (hact.erase kv.1)
      have hnp : newPressed rest (active.erase kv.1) = newPressed rest active := by
        apply newPressed_congr
        intro kv' h'
        have hne : kv'.1 ≠ kv.1 := fun hcontra =>
          hkv_fresh (hcontra ▸ List.mem_map_of_mem Prod.fst h')
        exact List.mem_erase_of_ne hne
      refine ⟨active', ?_, hnodup', ?_⟩
      · have hstep : resolveFold (kv :: rest) active pressed released =
            resolveFold rest (active.erase kv.1) pressed (released ++ [kv.1]) := by
          rw [resolveFold_cons, if_neg (not_lt.mpr hkv_nonneg), if_pos hzkv, if_pos hmem]
        rw [hstep, hres, hnp, zeroKeys_cons_zero hzkv, newPressed_cons_zero hzkv]
        simp [List.append_assoc]
      · intro k
        rw [hmemiff k, hnp, zeroKeys_cons_zero hzkv, newPressed_cons_zero hzkv]
        rw [hact.mem_erase_iff]
        simp only [List.mem_cons]
        tauto
    · have hkv_pos : 0 < kv.2 := lt_of_le_of_ne hkv_nonneg (Ne.symm hzkv)
      have hzero' : ∀ kv' ∈ rest, kv'.2 = 0 → kv'.1 ∈ active := fun kv' h' hz' =>
        hzero kv' (List.mem_cons_of_mem _ h') hz'
      by_cases hmem : kv.1 ∈ active
      · -- already pressed
        obtain ⟨active', hres, hnodup', hmemiff⟩ :=
          ih active pressed released hpos' hzero' hnd.2 hact
        refine ⟨active', ?_, hnodup', ?_⟩
        · have hstep : resolveFold (kv :: rest) active pressed released =
              resolveFold rest active pressed released := by
            rw [resolveFold_cons, if_neg (not_lt.mpr hkv_nonneg), if_neg hzkv, if_pos hmem]
          rw [hstep, hres, zeroKeys_cons_ne hzkv, newPressed_cons_mem hmem]
        · intro k
          rw [hmemiff k, zeroKeys_cons_ne hzkv, newPressed_cons_mem hmem]
      · -- newly pressed
        have hzero'' : ∀ kv' ∈ rest, kv'.2 = 0 → kv'.1 ∈ active ++ [kv.1] := fun kv' h' hz' =>
          List.mem_append_left _ (hzero' kv' h' hz')
        have hact' : (active ++ [kv.1]).Nodup := by
          simp [List.nodup_append, hact, hmem]
        obtain ⟨active', hres, hnodup', hmemiff⟩ :=
          ih (active ++ [kv.1]) (pressed ++ [kv.1]) released hpos' hzero'' hnd.2 hact'
        have hnp : newPressed rest (active ++ [kv.1]) = newPressed rest active := by
          apply newPressed_congr
          intro kv' h'
          have hne : kv'.1 ≠ kv.1 := fun hcontra =>
            hkv_fresh (hcontra ▸ List.mem_map_of_mem Prod.fst h')
          simp [hne]
        have hkv_not_zk : kv.1 ∉ zeroKeys rest := fun hcontra =>
          hkv_fresh (zeroKeys_subset hcontra)
        refine ⟨active', ?_, hnodup', ?_⟩
        · have hstep : resolveFold (kv :: rest) active pressed released =
              resolveFold rest (active ++ [kv.1]) (pressed ++ [kv.1]) released := by
            rw [resolveFold_cons, if_neg (not_lt.mpr hkv_nonneg), if_neg hzkv, if_neg hmem]
          rw [hstep, hres, hnp, zeroKeys_cons_ne hzkv, newPressed_cons_new hkv_pos hmem]
          simp [List.append_assoc]
        · intro k
          rw [hmemiff k, hnp, zeroKeys_cons_ne hzkv, newPressed_cons_new hkv_pos hmem]
          simp only [List.mem_append, List.mem_singleton, List.mem_cons,
            List.not_mem_nil, or_false]
          rcases eq_or_ne k kv.1 with rfl | hk <;> tauto
lemma decay_nonneg {acts : List (String × Int)} (h : ∀ kv ∈ acts, 1 ≤ kv.2) :
    ∀ kv ∈ decay acts, 0 ≤ kv.2 := by
  intro kv hkv
  rcases List.mem_map.mp hkv with ⟨kv0, h0, rfl⟩
  have := h kv0 h0
  omega
lemma decay_keys (acts : List (String × Int)) :
    (decay acts).map Prod.fst = acts.map Prod.fst := by
  induction acts with
  | nil => rfl
  | cons hd tl ih => simp only [decay, List.map_cons] at ih ⊢; rw [ih]
lemma map_fst_update (acts : List (String × Int)) (key : String) :
    (acts.map (fun kv => if kv.1 = key then (kv.1, kv.2 + 1) else kv)).map Prod.fst =
      acts.map Prod.fst := by
  induction acts with
  | nil => rfl
  | cons hd tl ih =>
    simp only [List.map_cons, ih]
    by_cases h : hd.1 = key <;> simp [h]
lemma demandOne_spec (acts : List (String × Int)) (key : String) (P : String → Prop)
    (h1 : ∀ kv ∈ acts, 0 ≤ kv.2) (h2 : ∀ kv ∈ acts, kv.2 = 0 → P kv.1)
    (h3 : (acts.map Prod.fst).Nodup) :
    (∀ kv ∈ demandOne acts key, 0 ≤ kv.2) ∧
    (∀ kv ∈ demandOne acts key, kv.2 = 0 → P kv.1) ∧
    ((demandOne acts key).map Prod.fst).Nodup ∧
    (∀ k, k ∈ acts.map Prod.fst → k ∈ (demandOne acts key).map Prod.fst) := by
  unfold demandOne
  by_cases hany : acts.any (fun kv => decide (kv.1 = key)) = true
  · rw [if_pos hany]
    refine ⟨?_, ?_, ?_, ?_⟩
    · intro kv hkv
      rcases List.mem_map.mp hkv with ⟨kv0, h0, rfl⟩
      have := h1 kv0 h0
      by_cases hk : kv0.1 = key <;> simp [hk] <;> omega
    · intro kv hkv hz
      rcases List.mem_map.mp hkv with ⟨kv0, h0, rfl⟩
      by_cases hk : kv0.1 = key
      · rw [if_pos hk] at hz
        have hz' : kv0.2 + 1 = 0 := hz
        have := h1 kv0 h0
        omega
      · rw [if_neg hk] at hz ⊢
        exact h2 kv0 h0 hz
    · rw [map_fst_update]; exact h3
    · intro k hk; rw [map_fst_update]; exact hk
  · rw [if_neg hany]
    refine ⟨?_, ?_, ?_, ?_⟩
    · intro kv hkv
      rcases List.mem_append.mp hkv with h | h
      · exact h1 kv h
      · simp only [List.mem_singleton] at h
        subst h
        norm_num
    · intro kv hkv hz
      rcases List.mem_append.mp hkv with h | h
      · exact h2 kv h hz
      · simp only [List.mem_singleton] at h
        subst h
        norm_num at hz
    · have hkey : key ∉ acts.map Prod.fst := by
        intro hcontra
        rcases List.mem_map.mp hcontra with ⟨kv0, h0, hk⟩
        exact hany (List.any_eq_true.mpr ⟨kv0, h0, by simp [hk]⟩)
      simp [List.map_append, List.nodup_append, hkey, h3]
    · intro k hk
      simp only [List.map_append, List.mem_append]
      exact Or.inl hk
lemma demand_spec (P : String → Prop) :
    ∀ (desired : List String) (acts : List (String × Int)),
      (∀ kv ∈ acts, 0 ≤ kv.2) → (∀ kv ∈ acts, kv.2 = 0 → P kv.1) →
      (acts.map Prod.fst).Nodup →
      (∀ kv ∈ demand acts desired, 0 ≤ kv.2) ∧
      (∀ kv ∈ demand acts desired, kv.2 = 0 → P kv.1) ∧
      ((demand acts desired).map Prod.fst).Nodup ∧
      (∀ k, k ∈ acts.map Prod.fst → k ∈ (demand acts desired).map Prod.fst) := by
  intro desired
  induction desired with
  | nil => intro acts h1 h2 h3; exact ⟨h1, h2, h3, fun k hk => hk⟩
  | cons key rest ih =>
    intro acts h1 h2 h3
    have hone := demandOne_spec acts key P h1 h2 h3
    have hrest := ih (demandOne acts key) hone.1 hone.2.1 hone.2.2.1
    have hstep : demand acts (key :: rest) = demand (demandOne acts key) rest := rfl
    rw [hstep]
    exact ⟨hrest.1, hrest.2.1, hrest.2.2.1,
      fun k hk => hrest.2.2.2 k (hone.2.2.2 k hk)⟩
lemma run_preserves (s : EngineState) (hs : GoodState s) (d : List String) :
    ∃ s' pressed released,
      Engine.run s d = some (s', pressed, released) ∧
      GoodState s' ∧
      released = zeroKeys (demand (decay s.activations_by_key) d) ∧
      pressed = newPressed (demand (decay s.activations_by_key) d) s.active_keys ∧
      (∀ k ∈ released, k ∈ s.active_keys) ∧
      (∀ k, k ∈ s'.active_keys ↔
        ∃ kv ∈ demand (decay s.activations_by_key) d, kv.1 = k ∧ 0 < kv.2) ∧
      (∀ kv ∈ demand (decay s.activations_by_key) d, kv.2 = 0 →
        kv.1 ∉ s'.activations_by_key.map Prod.fst) ∧
      (∀ kv ∈ decay s.activations_by_key, 0 ≤ kv.2) ∧
      (∀ kv ∈ demand (decay s.activations_by_key) d, 0 ≤ kv.2) := by
  obtain ⟨hs1, hs2, hs3, hs4⟩ := hs
  have hdec_pos : ∀ kv ∈ decay s.activations_by_key, 0 ≤ kv.2 := decay_nonneg hs1
  have hdec_zero : ∀ kv ∈ decay s.activations_by_key, kv.2 = 0 → kv.1 ∈ s.active_keys := by
    intro kv hkv _
    have hmem : kv.1 ∈ (decay s.activations_by_key).map Prod.fst :=
      List.mem_map_of_mem _ hkv
    rw [decay_keys] at hmem
    exact (hs4 kv.1).mpr hmem
  have hdec_nd : ((decay s.activations_by_key).map Prod.fst).Nodup := by
    rw [decay_keys]; exact hs2
  obtain ⟨hd_pos, hd_zero, hd_nd, hd_keys⟩ :=
    demand_spec (· ∈ s.active_keys) d (decay s.activations_by_key) hdec_pos hdec_zero hdec_nd
  obtain ⟨active', hres, hnodup', hmemiff⟩ :=
    resolveFold_spec (demand (decay s.activations_by_key) d) s.active_keys [] []
      hd_pos hd_zero hd_nd hs3
  set acts2 := demand (decay s.activations_by_key) d with hacts2
  -- membership in the keys of the post-deletion activation map
  have hfilter_mem : ∀ k,
      k ∈ (acts2.filter (fun kv => decide (kv.1 ∉ zeroKeys acts2))).map Prod.fst ↔
        (k ∈ acts2.map Prod.fst ∧ k ∉ zeroKeys acts2) := by
    intro k
    simp only [List.mem_map, List.mem_filter, decide_eq_true_eq]
    constructor
    · rintro ⟨kv, ⟨hm, hnz⟩, rfl⟩
      exact ⟨⟨kv, hm, rfl⟩, hnz⟩
    · rintro ⟨⟨kv, hm, rfl⟩, hnz⟩
      exact ⟨kv, ⟨hm, hnz⟩, rfl⟩
  have hpos_iff : ∀ k, (∃ kv ∈ acts2, kv.1 = k ∧ 0 < kv.2) ↔
      (k ∈ acts2.map Prod.fst ∧ k ∉ zeroKeys acts2) := by
    intro k
    constructor
    · rintro ⟨kv, hm, rfl, hp⟩
      refine ⟨List.mem_map_of_mem _ hm, fun hz => ?_⟩
      rcases mem_zeroKeys.mp hz with ⟨kv', hm', hk', hz'⟩
      have := key_unique acts2 hd_nd kv hm kv' hm' hk'.symm
      rw [this] at hp
      omega
    · rintro ⟨hk, hnz⟩
      rcases List.mem_map.mp hk with ⟨kv, hm, rfl⟩
      refine ⟨kv, hm, rfl, ?_⟩
      have h0 := hd_pos kv hm
      rcases lt_or_eq_of_le h0 with h | h
      · exact h
      · exact absurd (mem_zeroKeys.mpr ⟨kv, hm, rfl, h.symm⟩) hnz
  have hact_iff : ∀ k, k ∈ active' ↔ (∃ kv ∈ acts2, kv.1 = k ∧ 0 < kv.2) := by
    intro k
    rw [hmemiff k, hpos_iff k]
    constructor
    · rintro (⟨hmem, hnz⟩ | hnp)
      · have : k ∈ acts2.map Prod.fst :=
          hd_keys k (by rw [decay_keys]; exact (hs4 k).mp hmem)
        exact ⟨this, hnz⟩
      · rcases mem_newPressed.mp hnp with ⟨kv, hm, rfl, hp, hna⟩
        exact (hpos_iff kv.1).mp ⟨kv, hm, rfl, hp⟩
    · rintro ⟨hk, hnz⟩
      by_cases hmem : k ∈ s.active_keys
      · exact Or.inl ⟨hmem, hnz⟩
      · rcases ((hpos_iff k).mpr ⟨hk, hnz⟩) with ⟨kv, hm, rfl, hp⟩
        exact Or.inr (mem_newPressed.mpr ⟨kv, hm, rfl, hp, hmem⟩)
  have hrun : Engine.run s d =
      some (⟨acts2.filter (fun kv => decide (kv.1 ∉ zeroKeys acts2)), active'⟩,
        newPressed acts2 s.active_keys, zeroKeys acts2) := by
    unfold Engine.run
    rw [← hacts2, hres]
    simp
  refine ⟨_, _, _, hrun, ?_, rfl, rfl, ?_, ?_, ?_, hdec_pos, hd_pos⟩
  · -- GoodState of the next state
    refine ⟨?_, ?_, hnodup', ?_⟩
    · intro kv hkv
      have hm := List.mem_filter.mp hkv
      have hnz : kv.1 ∉ zeroKeys acts2 := by
        have := hm.2
        simpa using this
      have h0 := hd_pos kv hm.1
      rcases lt_or_eq_of_le h0 with h | h
      · omega
      · exact absurd (mem_zeroKeys.mpr ⟨kv, hm.1, rfl, h.symm⟩) hnz
    · exact ((List.filter_sublist _).map Prod.fst).nodup hd_nd
    · intro k
      rw [hfilter_mem k]
      rw [hact_iff k, hpos_iff k]
  · intro k hk
    rcases mem_zeroKeys.mp hk with ⟨kv, hm, rfl, hz⟩
    exact hd_zero kv hm hz
  · exact hact_iff
  · intro kv hkv hz hcontra
    rw [hfilter_mem kv.1] at hcontra
    exact hcontra.2 (mem_zeroKeys.mpr ⟨kv, hkv, rfl, hz⟩)
lemma good_init : GoodState EngineState.init := by
  refine ⟨?_, ?_, ?_, ?_⟩ <;> simp [EngineState.init]
lemma runTrace_cons_some {s s' : EngineState} {d : List String} {ds : List (List String)}
    {pressed released : List String}
    (hrun : Engine.run s d = some (s', pressed, released)) :
    Engine.runTrace s (d :: ds) =
      (match Engine.runTrace s' ds with
      | none => none
      | some (sfin, trace) => some (sfin, (pressed, released) :: trace)) := by
  rw [Engine.runTrace, hrun]
lemma runTrace_cons_none {s : EngineState} {d : List String} {ds : List (List String)}
    (hrun : Engine.run s d = none) :
    Engine.runTrace s (d :: ds) = none := by
  rw [Engine.runTrace, hrun]
lemma runTrace_good : ∀ (ds : List (List String)) (s0 : EngineState), GoodState s0 →
    ∀ out, Engine.runTrace s0 ds = some out → GoodState out.1 := by
  intro ds
  induction ds with
  | nil =>
    intro s0 h out hout
    simp only [Engine.runTrace, Option.some.injEq] at hout
    rw [← hout]
    exact h
  | cons d ds ih =>
    intro s0 h out hout
    obtain ⟨s', pressed, released, hrun, hgood, -⟩ := run_preserves s0 h d
    rw [runTrace_cons_some hrun] at hout
    cases htr : Engine.runTrace s' ds with
    | none => rw [htr] at hout; cases hout
    | some out' =>
      obtain ⟨sfin, trace⟩ := out'
      rw [htr] at hout
      have hout' : some (sfin, (pressed, released) :: trace) = some out := hout
      have hgfin := ih s' hgood (sfin, trace) htr
      simp only [Option.some.injEq] at hout'
      rw [← hout']
      exact hgfin
lemma reachable_good {s : EngineState} (h : Reachable s) : GoodState s := by
  obtain ⟨ds, out, htr, hout⟩ := h
  have := runTrace_good ds EngineState.init good_init out htr
  rw [← hout]
  exact this
lemma runTrace_append : ∀ (ds1 ds2 : List (List String)) (s s1 s2 : EngineState)
    (tr1 tr2 : List (List String × List String)),
    Engine.runTrace s ds1 = some (s1, tr1) →
    Engine.runTrace s1 ds2 = some (s2, tr2) →
    Engine.runTrace s (ds1 ++ ds2) = some (s2, tr1 ++ tr2) := by
  intro ds1
  induction ds1 with
  | nil =>
    intro ds2 s s1 s2 tr1 tr2 h1 h2
    simp only [Engine.runTrace, Option.some.injEq, Prod.mk.injEq] at h1
    rw [List.nil_append, h1.1, ← h1.2, List.nil_append]
    exact h2
  | cons d ds ih =>
    intro ds2 s s1 s2 tr1 tr2 h1 h2
    cases hrun : Engine.run s d with
    | none => rw [runTrace_cons_none hrun] at h1; cases h1
    | some v =>
      obtain ⟨s', pressed, released⟩ := v
      rw [runTrace_cons_some hrun] at h1
      cases htr : Engine.runTrace s' ds with
      | none => rw [htr] at h1; cases h1
      | some out' =>
        obtain ⟨sfin, trace⟩ := out'
        rw [htr] at h1
        have h1' : some (sfin, (pressed, released) :: trace) = some (s1, tr1) := h1
        simp only [Option.some.injEq, Prod.mk.injEq] at h1'
        rw [h1'.1] at htr
        have hrec := ih ds2 s' s1 s2 trace tr2 htr h2
        rw [List.cons_append, runTrace_cons_some hrun, hrec]
        rw [← h1'.2]
        rfl
lemma steady_run :
    Engine.run ⟨[("x", 2)], ["x"]⟩ ["x"] = some (⟨[("x", 2)], ["x"]⟩, [], []) := rfl
lemma steady_replicate (n : ℕ) :
    Engine.runTrace ⟨[("x", 2)], ["x"]⟩ (List.replicate n ["x"]) =
      some (⟨[("x", 2)], ["x"]⟩, List.replicate n ([], [])) := by
  induction n with
  | zero => rfl
  | succ n ih =>
    rw [List.replicate_succ, runTrace_cons_some steady_run, ih, List.replicate_succ]
/-- C1 (amended): two sources demand "x" in frame 1 and one of them in
frame 2, so no release is emitted in frame 2; but because the count at the
end of frame 2 is 2 (decay to 1, demand back to 2), the release is emitted
only in the *second* consecutive frame with no demand — one frame later
than the claim states.  For any number `n` of further single-demand frames,
the trace presses "x" exactly once (frame 1) and releases it exactly in the
last of two demand-free frames. -/
theorem c1_amended (n : ℕ) :
    ∃ tr, Engine.runTrace EngineState.init
        ([["x", "x"], ["x"]] ++ List.replicate n ["x"] ++ [[], []]) =
          some (EngineState.init, tr) ∧
      tr.map Prod.snd = List.replicate (n + 3) ([] : List String) ++ [["x"]] ∧
      tr.map Prod.fst = ["x"] :: List.replicate (n + 3) ([] : List String) := by
  refine ⟨[(["x"], []), ([], [])] ++ List.replicate n ([], []) ++ [([], []), ([], ["x"])],
    ?_, ?_, ?_⟩
  · have h1 : Engine.runTrace EngineState.init [["x", "x"], ["x"]] =
        some (⟨[("x", 2)], ["x"]⟩, [(["x"], []), ([], [])]) := rfl
    have h3 : Engine.runTrace ⟨[("x", 2)], ["x"]⟩ [[], []] =
        some (EngineState.init, [([], []), ([], ["x"])]) := rfl
    have h12 := runTrace_append _ _ _ _ _ _ _ h1 (steady_replicate n)
    have h123 := runTrace_append _ _ _ _ _ _ _ h12 h3
    simpa [List.append_assoc] using h123
  · have hrep : List.replicate (n + 3) ([] : List String) =
        [] :: [] :: (List.replicate n [] ++ [[]]) := by
      rw [List.replicate_succ, List.replicate_succ, List.replicate_succ']
    rw [hrep]
    simp [List.map_append, List.map_replicate, List.append_assoc]
  · have hrep : List.replicate (n + 3) ([] : List String) =
        [] :: (List.replicate n [] ++ [[], []]) := by
      have h2 : ([[], []] : List (List String)) = List.replicate 2 [] := rfl
      rw [h2, ← List.replicate_add, List.replicate_succ]
    rw [hrep]
    simp [List.map_append, List.map_replicate, List.append_assoc]
/-- C1 (counterexample): after demands `["x","x"]`, `["x"]`, frame 3 demands
nothing — it is the first subsequent frame in which no source demands "x" —
yet its release list is empty and "x" is still pressed (count 1), refuting
"a release of x is emitted exactly in the first subsequent frame in which
no source demands x". -/
theorem c1_counterexample :
    Engine.runTrace EngineState.init [["x", "x"], ["x"], []] =
      some (⟨[("x", 1)], ["x"]⟩, [(["x"], []), ([], []), ([], [])]) := rfl
/-- C5: a single source bound to "x": demanding on frames 1 and 2 emits
exactly one press (frame 1, pressed list `["x"]`) and no release through
frame 2; demanding only on frame 1 emits the press on frame 1 and the
release on frame 2. -/
theorem c5_single_source :
    Engine.runTrace EngineState.init [["x"], ["x"]] =
      some (⟨[("x", 1)], ["x"]⟩, [(["x"], []), ([], [])]) ∧
    Engine.runTrace EngineState.init [["x"], []] =
      some (EngineState.init, [(["x"], []), ([], ["x"])]) := ⟨rfl, rfl⟩
/-- C4: from every reachable engine state, every per-frame update succeeds
(`Engine.run` never returns `none`, i.e. the internal `assert activation >= 0`
and `assert key in active_keys` never fire) and every released key was in the
pressed set before the frame. -/
theorem c4_release_only_pressed (s : EngineState) (hs : Reachable s) (d : List String) :
    ∃ s' pressed released,
      Engine.run s d = some (s', pressed, released) ∧
      ∀ k ∈ released, k ∈ s.active_keys := by
  obtain ⟨s', pressed, released, hrun, -, -, -, hrel, -⟩ :=
    run_preserves s (reachable_good hs) d
  exact ⟨s', pressed, released, hrun, hrel⟩
/-- C4 witness: the theorem applied at the freshly constructed engine and a
single demanded key. -/
theorem c4_witness :
    ∃ s' pressed released,
      Engine.run EngineState.init ["x"] = some (s', pressed, released) ∧
      ∀ k ∈ released, k ∈ EngineState.init.active_keys :=
  c4_release_only_pressed EngineState.init ⟨[], ⟨EngineState.init, []⟩, rfl, rfl⟩ ["x"]
/-- C3 (amended): for every reachable state and per-frame update, no
activation count is negative at any point of the frame (stored state, after
decay, after demand, in the next state); at the end of the frame a key is in
the pressed set if and only if its count *after the decay-plus-demand phase*
is positive (not, as the claim stated, its count before the decrement step);
and every key whose count is zero after decay-plus-demand is removed from
the tracking map within the same frame. -/
theorem c3_invariants (s : EngineState) (d : List String)
    (s' : EngineState) (pressed released : List String)
    (hs : Reachable s)
    (hrun : Engine.run s d = some (s', pressed, released)) :
    (∀ kv ∈ s.activations_by_key, 0 ≤ kv.2) ∧
    (∀ kv ∈ decay s.activations_by_key, 0 ≤ kv.2) ∧
    (∀ kv ∈ demand (decay s.activations_by_key) d, 0 ≤ kv.2) ∧
    (∀ kv ∈ s'.activations_by_key, 0 ≤ kv.2) ∧
    (∀ k, k ∈ s'.active_keys ↔
      ∃ kv ∈ demand (decay s.activations_by_key) d, kv.1 = k ∧ 0 < kv.2) ∧
    (∀ kv ∈ demand (decay s.activations_by_key) d, kv.2 = 0 →
      kv.1 ∉ s'.activations_by_key.map Prod.fst) := by
  have hgood := reachable_good hs
  obtain ⟨s'', pressed', released', hrun', hgood', -, -, -, hactiff, hremoved, hdecpos, hdempos⟩ :=
    run_preserves s hgood d
  rw [hrun] at hrun'
  simp only [Option.some.injEq, Prod.mk.injEq] at hrun'
  obtain ⟨hseq, -, -⟩ := hrun'
  subst hseq
  exact ⟨fun kv hkv => le_of_lt (lt_of_lt_of_le Int.zero_lt_one (hgood.1 kv hkv)),
    hdecpos, hdempos,
    fun kv hkv => le_of_lt (lt_of_lt_of_le Int.zero_lt_one (hgood'.1 kv hkv)),
    hactiff, hremoved⟩
/-- C3 witness: the amended invariants instantiated at the freshly
constructed engine and the frame demanding `["x"]`. -/
theorem c3_witness :
    (∀ kv ∈ EngineState.init.activations_by_key, 0 ≤ kv.2) ∧
    (∀ kv ∈ decay EngineState.init.activations_by_key, 0 ≤ kv.2) ∧
    (∀ kv ∈ demand (decay EngineState.init.activations_by_key) ["x"], 0 ≤ kv.2) ∧
    (∀ kv ∈ (⟨[("x", 1)], ["x"]⟩ : EngineState).activations_by_key, 0 ≤ kv.2) ∧
    (∀ k, k ∈ (⟨[("x", 1)], ["x"]⟩ : EngineState).active_keys ↔
      ∃ kv ∈ demand (decay EngineState.init.activations_by_key) ["x"], kv.1 = k ∧ 0 < kv.2) ∧
    (∀ kv ∈ demand (decay EngineState.init.activations_by_key) ["x"], kv.2 = 0 →
      kv.1 ∉ (⟨[("x", 1)], ["x"]⟩ : EngineState).activations_by_key.map Prod.fst) :=
  c3_invariants EngineState.init ["x"] ⟨[("x", 1)], ["x"]⟩ ["x"] []
    ⟨[], ⟨EngineState.init, []⟩, rfl, rfl⟩ rfl
/-- C3 (counterexample): in frame 1 the fresh engine demands "x"; at the end
of the frame "x" is in the pressed set although its count before the frame's
decrement step was not positive (the map was empty), refuting the claimed
biconditional. -/
theorem c3_counterexample :
    Engine.run EngineState.init ["x"] =
      some (⟨[("x", 1)], ["x"]⟩, ["x"], []) ∧
    EngineState.init.activations_by_key = [] ∧
    "x" ∈ (⟨[("x", 1)], ["x"]⟩ : EngineState).active_keys := by
  refine ⟨rfl, rfl, ?_⟩
  simp

/-! ## Geometry, player assignment and configuration lemmas and claims -/

lemma half_point (a b : ℚ) : min a b + (max a b - min a b) / 2 = (a + b) / 2 := by
  have h := min_add_max a b
  linarith

lemma center_minmax_mean (l r : Point) :
    center_minmax l r = ((l.x + r.x) / 2, (l.y + r.y) / 2) := by
  unfold center_minmax
  rw [Prod.mk.injEq]
  exact ⟨half_point l.x r.x, half_point l.y r.y⟩

lemma hip_level_none_iff (d : Detection) :
    determine_hip_level d = none ↔
      (d.keypoints KeypointLabel.LEFT_HIP = none ∧
       d.keypoints KeypointLabel.RIGHT_HIP = none) := by
  unfold determine_hip_level
  rcases h1 : d.keypoints KeypointLabel.LEFT_HIP with _ | lh <;>
    rcases h2 : d.keypoints KeypointLabel.RIGHT_HIP with _ | rh <;> simp [h1, h2]

lemma center_none_iff (d : Detection) :
    determine_center_of_wrists d = none ↔
      (d.keypoints KeypointLabel.LEFT_WRIST = none ∨
       d.keypoints KeypointLabel.RIGHT_WRIST = none) := by
  unfold determine_center_of_wrists
  rcases h1 : d.keypoints KeypointLabel.LEFT_WRIST with _ | lw <;>
    rcases h2 : d.keypoints KeypointLabel.RIGHT_WRIST with _ | rw <;> simp [h1, h2]

lemma pointer_position_eq (d : Detection) (nose : Point) (bottom : ℚ) (center : ℚ × ℚ)
    (hn : d.keypoints KeypointLabel.NOSE = some nose)
    (hb : determine_hip_level d = some bottom)
    (hc : determine_center_of_wrists d = some center) :
    determine_pointer_position d =
      (if bottom - nose.y = 0 then none
       else if (bottom - center.2) / (bottom - nose.y) > 66 / 100 then some Pointer.HIGH
       else if (bottom - center.2) / (bottom - nose.y) > 33 / 100 then some Pointer.MID
       else some Pointer.LOW) := by
  unfold determine_pointer_position
  rw [hn, hb, hc]

lemma pointer_position_not_detected_iff (d : Detection) :
    determine_pointer_position d = some Pointer.NOT_DETECTED ↔
      (d.keypoints KeypointLabel.NOSE = none ∨
       determine_hip_level d = none ∨
       determine_center_of_wrists d = none) := by
  rcases hn : d.keypoints KeypointLabel.NOSE with _ | nose
  · unfold determine_pointer_position
    rw [hn]
    simp [hn]
  · rcases hb : determine_hip_level d with _ | bottom
    · unfold determine_pointer_position
      rw [hn, hb]
      simp [hn, hb]
    · rcases hc : determine_center_of_wrists d with _ | center
      · unfold determine_pointer_position
        rw [hn, hb, hc]
        simp [hn, hb, hc]
      · rw [pointer_position_eq d nose bottom center hn hb hc]
        split_ifs <;> simp

lemma pointer_position_none_iff (d : Detection) :
    determine_pointer_position d = none ↔
      ∃ nose bottom center,
        d.keypoints KeypointLabel.NOSE = some nose ∧
        determine_hip_level d = some bottom ∧
        determine_center_of_wrists d = some center ∧
        bottom = nose.y := by
  rcases hn : d.keypoints KeypointLabel.NOSE with _ | nose
  · unfold determine_pointer_position
    rw [hn]
    simp [hn]
  · rcases hb : determine_hip_level d with _ | bottom
    · unfold determine_pointer_position
      rw [hn, hb]
      simp [hn, hb]
    · rcases hc : determine_center_of_wrists d with _ | center
      · unfold determine_pointer_position
        rw [hn, hb, hc]
        simp [hn, hb, hc]
      · rw [pointer_position_eq d nose bottom center hn hb hc]
        by_cases hz : bottom - nose.y = 0
        · rw [if_pos hz]
          simp only [true_iff]
          exact ⟨nose, bottom, center, rfl, rfl, rfl, sub_eq_zero.mp hz⟩
        · rw [if_neg hz]
          constructor
          · intro hcontra
            split_ifs at hcontra
          · rintro ⟨nose', bottom', center', hn', hb', hc', heq⟩
            obtain rfl : nose = nose' := Option.some.inj hn'
            obtain rfl : bottom = bottom' := Option.some.inj hb'
            exact absurd (sub_eq_zero.mpr heq) hz

/-- C2 (counterexample): a detection with nose, both hips and both wrists
present whose average hip y (3/10) equals the nose y: pointer
classification returns no value — the Python code raises
`ZeroDivisionError` — contradicting "never fails when the average hip
y-coordinate equals the nose y-coordinate". -/
theorem c2_counterexample :
    determine_pointer_position d_degenerate = none ∧
    determine_hip_level d_degenerate = some (3 / 10) ∧
    d_degenerate.keypoints KeypointLabel.NOSE = some ⟨1 / 2, 3 / 10⟩ := by
  have hhip : determine_hip_level d_degenerate = some (3 / 10) := by
    unfold determine_hip_level d_degenerate
    norm_num
  refine ⟨?_, hhip, rfl⟩
  unfold determine_pointer_position
  rw [hhip]
  unfold determine_center_of_wrists d_degenerate center_minmax
  norm_num

/-- C6 (counterexample): a detection with all required keypoints present
(so not in the NOT_DETECTED case) for which pointer classification returns
no value at all (division by zero, hip level = nose y) instead of a
HIGH/MID/LOW classification by the stated thresholds. -/
theorem c6_counterexample :
    d_degenerate2.keypoints KeypointLabel.NOSE = some ⟨1 / 2, 1 / 5⟩ ∧
    determine_hip_level d_degenerate2 = some (1 / 5) ∧
    determine_center_of_wrists d_degenerate2 = some (1 / 2, 2 / 5) ∧
    determine_pointer_position d_degenerate2 = none := by
  have hhip : determine_hip_level d_degenerate2 = some (1 / 5) := by
    unfold determine_hip_level d_degenerate2
    norm_num
  have hcen : determine_center_of_wrists d_degenerate2 = some (1 / 2, 2 / 5) := by
    unfold determine_center_of_wrists d_degenerate2 center_minmax
    norm_num
  refine ⟨rfl, hhip, hcen, ?_⟩
  have hnose : d_degenerate2.keypoints KeypointLabel.NOSE = some ⟨1 / 2, 1 / 5⟩ := rfl
  unfold determine_pointer_position
  rw [hhip, hcen, hnose]
  norm_num

lemma wheel_angle_none_iff (d : Detection) :
    determine_wheel_angle d = none ↔
      (d.keypoints KeypointLabel.LEFT_WRIST = none ∨
       d.keypoints KeypointLabel.RIGHT_WRIST = none) := by
  unfold determine_wheel_angle
  rcases h1 : d.keypoints KeypointLabel.LEFT_WRIST with _ | lw <;>
    rcases h2 : d.keypoints KeypointLabel.RIGHT_WRIST with _ | rwp <;> simp [h1, h2]

lemma wheel_nd_iff (d : Detection) :
    determine_wheel_direction d = Wheel.NOT_DETECTED ↔ determine_wheel_angle d = none := by
  unfold determine_wheel_direction
  rcases h : determine_wheel_angle d with _ | a
  · simp
  · simp only [iff_false, Option.some_ne_none, iff_false]
    intro hcontra
    split_ifs at hcontra

/-- C2 (amended): pointer classification fails (Python `ZeroDivisionError`,
modelled as `none`) exactly when the nose, a hip level and the wrist center
are all present and the hip level equals the nose y; otherwise it returns a
classification value.  Wheel-angle computation (and hence wheel
classification, which is total by construction) only yields the
NOT_DETECTED sentinel, exactly when a wrist is absent. -/
theorem c2_totality (d : Detection) :
    (determine_pointer_position d = none ↔
      ∃ nose bottom center,
        d.keypoints KeypointLabel.NOSE = some nose ∧
        determine_hip_level d = some bottom ∧
        determine_center_of_wrists d = some center ∧
        bottom = nose.y) ∧
    (determine_wheel_angle d = none ↔
      (d.keypoints KeypointLabel.LEFT_WRIST = none ∨
       d.keypoints KeypointLabel.RIGHT_WRIST = none)) ∧
    (determine_wheel_direction d = Wheel.NOT_DETECTED ↔ determine_wheel_angle d = none) :=
  ⟨pointer_position_none_iff d, wheel_angle_none_iff d, wheel_nd_iff d⟩

/-- C6 (amended): pointer classification returns NOT_DETECTED exactly when
the nose is absent, or both hips are absent, or either wrist is absent;
otherwise — provided additionally the hip level differs from the nose y,
without which the code fails with a division by zero instead of returning —
with relative = (hip_y − wrist_mid_y) / (hip_y − nose_y) and no clamping it
returns HIGH when relative > 0.66, MID when 0.33 < relative ≤ 0.66 and LOW
otherwise; in particular relative = 0 gives LOW, 1/2 gives MID and 1 gives
HIGH. -/
theorem c6_pointer_classification (d : Detection) :
    (determine_pointer_position d = some Pointer.NOT_DETECTED ↔
      (d.keypoints KeypointLabel.NOSE = none ∨
       (d.keypoints KeypointLabel.LEFT_HIP = none ∧
        d.keypoints KeypointLabel.RIGHT_HIP = none) ∨
       d.keypoints KeypointLabel.LEFT_WRIST = none ∨
       d.keypoints KeypointLabel.RIGHT_WRIST = none)) ∧
    (∀ nose bottom center,
      d.keypoints KeypointLabel.NOSE = some nose →
      determine_hip_level d = some bottom →
      determine_center_of_wrists d = some center →
      bottom ≠ nose.y →
      (determine_pointer_position d =
        some (if (bottom - center.2) / (bottom - nose.y) > 66 / 100 then Pointer.HIGH
          else if (bottom - center.2) / (bottom - nose.y) > 33 / 100 then Pointer.MID
          else Pointer.LOW) ∧
      ((bottom - center.2) / (bottom - nose.y) = 0 →
        determine_pointer_position d = some Pointer.LOW) ∧
      ((bottom - center.2) / (bottom - nose.y) = 1 / 2 →
        determine_pointer_position d = some Pointer.MID) ∧
      ((bottom - center.2) / (bottom - nose.y) = 1 →
        determine_pointer_position d = some Pointer.HIGH))) := by
  constructor
  · rw [pointer_position_not_detected_iff d, hip_level_none_iff d, center_none_iff d]
  · intro nose bottom center hn hb hc hne
    have hz : ¬(bottom - nose.y = 0) := fun h => hne (sub_eq_zero.mp h)
    have heq : determine_pointer_position d =
        (if (bottom - center.2) / (bottom - nose.y) > 66 / 100 then some Pointer.HIGH
         else if (bottom - center.2) / (bottom - nose.y) > 33 / 100 then some Pointer.MID
         else some Pointer.LOW) := by
      rw [pointer_position_eq d nose bottom center hn hb hc, if_neg hz]
    refine ⟨?_, ?_, ?_, ?_⟩
    · rw [heq]; split_ifs <;> rfl
    · intro hr; rw [heq, hr, if_neg (by norm_num), if_neg (by norm_num)]
    · intro hr; rw [heq, hr, if_neg (by norm_num), if_pos (by norm_num)]
    · intro hr; rw [heq, hr, if_pos (by norm_num)]

/-- C6 witness: a concrete detection with hands exactly halfway between hip
level and nose level classifies as MID, via the amended theorem. -/
theorem c6_witness : determine_pointer_position d_full = some Pointer.MID := by
  have hb : determine_hip_level d_full = some (9 / 10) := by
    unfold determine_hip_level d_full
    norm_num
  have hc : determine_center_of_wrists d_full = some (1 / 2, 1 / 2) := by
    unfold determine_center_of_wrists d_full center_minmax
    norm_num
  exact ((c6_pointer_classification d_full).2 ⟨1/2, 1/10⟩ (9/10) (1/2, 1/2)
    rfl hb hc (by norm_num)).2.2.1 (by norm_num)

lemma atan2_zero_of_pos {x : ℝ} (hx : 0 < x) : atan2 0 x = 0 := by
  unfold atan2
  rw [if_pos hx, zero_div, Real.arctan_zero]

lemma atan2_neg_of_zero {y : ℝ} (hy : y < 0) : atan2 y 0 = -(Real.pi / 2) := by
  unfold atan2
  rw [if_neg (lt_irrefl 0), if_neg (lt_irrefl 0), if_neg (not_lt.mpr hy.le), if_pos hy]

lemma atan2_pos_of_zero {y : ℝ} (hy : 0 < y) : atan2 y 0 = Real.pi / 2 := by
  unfold atan2
  rw [if_neg (lt_irrefl 0), if_neg (lt_irrefl 0), if_pos hy]

lemma pi_half_deg : Real.pi / 2 * 180 / Real.pi = 90 := by
  have h : Real.pi ≠ 0 := Real.pi_ne_zero
  field_simp
  ring

lemma wheel_angle_eq (d : Detection) (lw rwp : Point)
    (hlw : d.keypoints KeypointLabel.LEFT_WRIST = some lw)
    (hrw : d.keypoints KeypointLabel.RIGHT_WRIST = some rwp) :
    determine_wheel_angle d =
      some (atan2 (-((lw.y - (lw.y + rwp.y) / 2 : ℚ) : ℝ))
                  ((lw.x - (lw.x + rwp.x) / 2 : ℚ) : ℝ) * 180 / Real.pi) := by
  unfold determine_wheel_angle
  rw [hlw, hrw]
  show some (atan2 (-((lw.y - (center_minmax lw rwp).2 : ℚ) : ℝ))
          ((lw.x - (center_minmax lw rwp).1 : ℚ) : ℝ) * 180 / Real.pi) = _
  rw [center_minmax_mean]

lemma wheel_direction_of_angle (d : Detection) (a : ℝ)
    (h : determine_wheel_angle d = some a) :
    determine_wheel_direction d =
      (if |a| ≤ 22 then Wheel.NEUTRAL else if a < 0 then Wheel.RIGHT else Wheel.LEFT) := by
  unfold determine_wheel_direction ANGLE_TOLERANCE_FOR_NEUTRALITY
  rw [h]

/-- C7: wheel classification returns NOT_DETECTED exactly when either wrist
is absent; otherwise the angle is atan2(−vy, vx)·180/π for the vector
(vx, vy) from the wrist midpoint to the LEFT_WRIST keypoint, and the
direction is NEUTRAL iff |angle| ≤ 22, RIGHT iff angle < −22 and LEFT iff
angle > 22; in particular vy = 0, vx > 0 gives NEUTRAL, vx = 0, vy > 0
gives angle −90° hence RIGHT, and vx = 0, vy < 0 gives angle 90° hence
LEFT. -/
theorem c7_wheel_classification (d : Detection) :
    (determine_wheel_direction d = Wheel.NOT_DETECTED ↔
      (d.keypoints KeypointLabel.LEFT_WRIST = none ∨
       d.keypoints KeypointLabel.RIGHT_WRIST = none)) ∧
    (∀ lw rwp, d.keypoints KeypointLabel.LEFT_WRIST = some lw →
      d.keypoints KeypointLabel.RIGHT_WRIST = some rwp →
      (determine_wheel_angle d =
        some (atan2 (-((lw.y - (lw.y + rwp.y) / 2 : ℚ) : ℝ))
                    ((lw.x - (lw.x + rwp.x) / 2 : ℚ) : ℝ) * 180 / Real.pi)) ∧
      (∀ a, determine_wheel_angle d = some a →
        ((determine_wheel_direction d = Wheel.NEUTRAL ↔ |a| ≤ 22) ∧
         (determine_wheel_direction d = Wheel.RIGHT ↔ a < -22) ∧
         (determine_wheel_direction d = Wheel.LEFT ↔ 22 < a))) ∧
      (lw.y = rwp.y → rwp.x < lw.x → determine_wheel_direction d = Wheel.NEUTRAL) ∧
      (lw.x = rwp.x → rwp.y < lw.y → determine_wheel_direction d = Wheel.RIGHT) ∧
      (lw.x = rwp.x → lw.y < rwp.y → determine_wheel_direction d = Wheel.LEFT)) := by
  constructor
  · rw [wheel_nd_iff, wheel_angle_none_iff]
  · intro lw rwp hlw hrw
    have hangle := wheel_angle_eq d lw rwp hlw hrw
    refine ⟨hangle, ?_, ?_, ?_, ?_⟩
    · intro a ha
      rw [wheel_direction_of_angle d a ha]
      by_cases h1 : |a| ≤ 22
      · rw [if_pos h1]
        have h2 := abs_le.mp h1
        refine ⟨iff_of_true rfl h1, ?_, ?_⟩
        · exact iff_of_false (by simp) (not_lt.mpr (by linarith))
        · exact iff_of_false (by simp) (not_lt.mpr (by linarith))
      · rw [if_neg h1]
        push_neg at h1
        by_cases h2 : a < 0
        · rw [if_pos h2]
          rw [abs_of_neg h2] at h1
          refine ⟨iff_of_false (by simp) (by push_neg; rw [abs_of_neg h2]; linarith), ?_, ?_⟩
          · exact iff_of_true rfl (by linarith)
          · exact iff_of_false (by simp) (not_lt.mpr (by linarith))
        · rw [if_neg h2]
          push_neg at h2
          rw [abs_of_nonneg h2] at h1
          refine ⟨iff_of_false (by simp) (by push_neg; rw [abs_of_nonneg h2]; linarith),
            ?_, ?_⟩
          · exact iff_of_false (by simp) (not_lt.mpr (by linarith))
          · exact iff_of_true rfl h1
    · intro hy hx
      have hvy : ((lw.y - (lw.y + rwp.y) / 2 : ℚ) : ℝ) = 0 := by
        rw [hy]; push_cast; ring
      have hxR : (rwp.x : ℝ) < (lw.x : ℝ) := by exact_mod_cast hx
      have hvx : (0 : ℝ) < ((lw.x - (lw.x + rwp.x) / 2 : ℚ) : ℝ) := by
        push_cast; linarith
      have ha : determine_wheel_angle d = some 0 := by
        rw [hangle, hvy, neg_zero, atan2_zero_of_pos hvx, zero_mul, zero_div]
      rw [wheel_direction_of_angle d 0 ha, if_pos (by norm_num)]
    · intro hx hy
      have hvx : ((lw.x - (lw.x + rwp.x) / 2 : ℚ) : ℝ) = 0 := by
        rw [hx]; push_cast; ring
      have hyR : (rwp.y : ℝ) < (lw.y : ℝ) := by exact_mod_cast hy
      have hvy : -((lw.y - (lw.y + rwp.y) / 2 : ℚ) : ℝ) < 0 := by
        push_cast; linarith
      have ha : determine_wheel_angle d = some (-90) := by
        rw [hangle, hvx, atan2_neg_of_zero hvy, neg_mul, neg_div, pi_half_deg]
      rw [wheel_direction_of_angle d (-90) ha, if_neg (by norm_num), if_pos (by norm_num)]
    · intro hx hy
      have hvx : ((lw.x - (lw.x + rwp.x) / 2 : ℚ) : ℝ) = 0 := by
        rw [hx]; push_cast; ring
      have hyR : (lw.y : ℝ) < (rwp.y : ℝ) := by exact_mod_cast hy
      have hvy : 0 < -((lw.y - (lw.y + rwp.y) / 2 : ℚ) : ℝ) := by
        push_cast; linarith
      have ha : determine_wheel_angle d = some 90 := by
        rw [hangle, hvx, atan2_pos_of_zero hvy, pi_half_deg]
      rw [wheel_direction_of_angle d 90 ha, if_neg (by norm_num), if_neg (by norm_num)]

/-- C7 witness: wrists at equal height with the LEFT_WRIST keypoint to the
right of the midpoint classify as NEUTRAL, via the theorem. -/
theorem c7_witness : determine_wheel_direction d_full = Wheel.NEUTRAL := by
  exact ((c7_wheel_classification d_full).2 ⟨7/10, 1/2⟩ ⟨3/10, 1/2⟩ rfl rfl).2.2.1
    rfl (by norm_num)

lemma player_id_map (d : Detection) :
    determine_player_id_of_the_detection d =
      (determine_center_of_wrists d).map (fun c => if c.1 < 1 / 2 then 0 else 1) := by
  unfold determine_player_id_of_the_detection
  rcases h : determine_center_of_wrists d with _ | c
  · rfl
  · show (if c.1 < 1 / 2 then some 0 else some 1) = _
    rw [Option.map_some']
    by_cases hc : c.1 < 1 / 2
    · rw [if_pos hc, if_pos hc]
    · rw [if_neg hc, if_neg hc]

lemma player_id_cases (d : Detection) :
    determine_player_id_of_the_detection d = none ∨
    determine_player_id_of_the_detection d = some 0 ∨
    determine_player_id_of_the_detection d = some 1 := by
  rw [player_id_map]
  rcases h : determine_center_of_wrists d with _ | c
  · exact Or.inl rfl
  · by_cases hc : c.1 < 1 / 2
    · exact Or.inr (Or.inl (by rw [Option.map_some', if_pos hc]))
    · exact Or.inr (Or.inr (by rw [Option.map_some', if_neg hc]))

lemma split_foldl_fst : ∀ (ds : List Detection) (s1 s2 : Option Detection),
    (ds.foldl split_step (s1, s2)).1 =
      (match s1 with
       | some a => some a
       | none => ds.find? (fun d => determine_player_id_of_the_detection d == some 0)) := by
  intro ds
  induction ds with
  | nil => intro s1 s2; cases s1 <;> rfl
  | cons d ds ih =>
    intro s1 s2
    rw [List.foldl_cons]
    rcases player_id_cases d with h | h | h
    · have hpred : (determine_player_id_of_the_detection d == some 0) = false := by
        rw [h]; rfl
      have hstep : split_step (s1, s2) d = (s1, s2) := by unfold split_step; rw [h]
      rw [hstep, ih]
      cases s1
      · rw [List.find?_cons, hpred]
      · rfl
    · have hpred : (determine_player_id_of_the_detection d == some 0) = true := by
        rw [h]; rfl
      cases s1 with
      | none =>
        have hstep : split_step (none, s2) d = (some d, s2) := by unfold split_step; rw [h]
        rw [hstep, ih, List.find?_cons, hpred]
      | some a =>
        have hstep : split_step (some a, s2) d = (some a, s2) := by unfold split_step; rw [h]
        rw [hstep, ih]
    · have hpred : (determine_player_id_of_the_detection d == some 0) = false := by
        rw [h]; rfl
      cases s2 with
      | none =>
        have hstep : split_step (s1, none) d = (s1, some d) := by unfold split_step; rw [h]
        rw [hstep, ih]
        cases s1
        · rw [List.find?_cons, hpred]
        · rfl
      | some b =>
        have hstep : split_step (s1, some b) d = (s1, some b) := by unfold split_step; rw [h]
        rw [hstep, ih]
        cases s1
        · rw [List.find?_cons, hpred]
        · rfl

lemma split_foldl_snd : ∀ (ds : List Detection) (s1 s2 : Option Detection),
    (ds.foldl split_step (s1, s2)).2 =
      (match s2 with
       | some a => some a
       | none => ds.find? (fun d => determine_player_id_of_the_detection d == some 1)) := by
  intro ds
  induction ds with
  | nil => intro s1 s2; cases s2 <;> rfl
  | cons d ds ih =>
    intro s1 s2
    rw [List.foldl_cons]
    rcases player_id_cases d with h | h | h
    · have hpred : (determine_player_id_of_the_detection d == some 1) = false := by
        rw [h]; rfl
      have hstep : split_step (s1, s2) d = (s1, s2) := by unfold split_step; rw [h]
      rw [hstep, ih]
      cases s2
      · rw [List.find?_cons, hpred]
      · rfl
    · have hpred : (determine_player_id_of_the_detection d == some 1) = false := by
        rw [h]; rfl
      cases s1 with
      | none =>
        have hstep : split_step (none, s2) d = (some d, s2) := by unfold split_step; rw [h]
        rw [hstep, ih]
        cases s2
        · rw [List.find?_cons, hpred]
        · rfl
      | some a =>
        have hstep : split_step (some a, s2) d = (some a, s2) := by unfold split_step; rw [h]
        rw [hstep, ih]
        cases s2
        · rw [List.find?_cons, hpred]
        · rfl
    · have hpred : (determine_player_id_of_the_detection d == some 1) = true := by
        rw [h]; rfl
      cases s2 with
      | none =>
        have hstep : split_step (s1, none) d = (s1, some d) := by unfold split_step; rw [h]
        rw [hstep, ih, List.find?_cons, hpred]
      | some b =>
        have hstep : split_step (s1, some b) d = (s1, some b) := by unfold split_step; rw [h]
        rw [hstep, ih]

lemma id_d_left : determine_player_id_of_the_detection d_left = some 0 := by
  unfold determine_player_id_of_the_detection determine_center_of_wrists d_left center_minmax
  norm_num

lemma id_d_right : determine_player_id_of_the_detection d_right = some 1 := by
  unfold determine_player_id_of_the_detection determine_center_of_wrists d_right center_minmax
  norm_num

lemma id_d_first_at_03 : determine_player_id_of_the_detection d_first_at_03 = some 0 := by
  unfold determine_player_id_of_the_detection determine_center_of_wrists d_first_at_03
    center_minmax
  norm_num

lemma id_d_second_at_03 : determine_player_id_of_the_detection d_second_at_03 = some 0 := by
  unfold determine_player_id_of_the_detection determine_center_of_wrists d_second_at_03
    center_minmax
  norm_num

/-- C8: in two-player mode a detection without a computable wrist midpoint
gets no player id and is dropped; wrist-midpoint x < 0.5 maps to player 0
and otherwise to player 1; each slot keeps exactly the first detection in
input order that maps to it (`List.find?`), later ones being silently
discarded — in particular detections at x = 0.2 and x = 0.8 assign to
players 0 and 1 in either input order, and of two detections both at
x = 0.3 the first becomes player 0 and the second is dropped. -/
theorem c8_player_assignment :
    (∀ d : Detection, determine_player_id_of_the_detection d =
      (determine_center_of_wrists d).map (fun c => if c.1 < 1 / 2 then 0 else 1)) ∧
    (∀ ds : List Detection,
      (split_detections_for_each_player ds).1 =
        ds.find? (fun d => determine_player_id_of_the_detection d == some 0) ∧
      (split_detections_for_each_player ds).2 =
        ds.find? (fun d => determine_player_id_of_the_detection d == some 1)) ∧
    split_detections_for_each_player [d_left, d_right] = (some d_left, some d_right) ∧
    split_detections_for_each_player [d_right, d_left] = (some d_left, some d_right) ∧
    split_detections_for_each_player [d_first_at_03, d_second_at_03] =
      (some d_first_at_03, none) := by
  have hsplit : ∀ ds : List Detection,
      (split_detections_for_each_player ds).1 =
        ds.find? (fun d => determine_player_id_of_the_detection d == some 0) ∧
      (split_detections_for_each_player ds).2 =
        ds.find? (fun d => determine_player_id_of_the_detection d == some 1) := by
    intro ds
    exact ⟨split_foldl_fst ds none none, split_foldl_snd ds none none⟩
  refine ⟨player_id_map, hsplit, ?_, ?_, ?_⟩
  · have h1 : split_step (none, none) d_left = (some d_left, none) := by
      unfold split_step; rw [id_d_left]
    have h2 : split_step (some d_left, none) d_right = (some d_left, some d_right) := by
      unfold split_step; rw [id_d_right]
    show List.foldl split_step (none, none) [d_left, d_right] = _
    rw [List.foldl_cons, h1, List.foldl_cons, h2, List.foldl_nil]
  · have h1 : split_step (none, none) d_right = (none, some d_right) := by
      unfold split_step; rw [id_d_right]
    have h2 : split_step (none, some d_right) d_left = (some d_left, some d_right) := by
      unfold split_step; rw [id_d_left]
    show List.foldl split_step (none, none) [d_right, d_left] = _
    rw [List.foldl_cons, h1, List.foldl_cons, h2, List.foldl_nil]
  · have h1 : split_step (none, none) d_first_at_03 = (some d_first_at_03, none) := by
      unfold split_step; rw [id_d_first_at_03]
    have h2 : split_step (some d_first_at_03, none) d_second_at_03 =
        (some d_first_at_03, none) := by
      unfold split_step; rw [id_d_second_at_03]
    show List.foldl split_step (none, none) [d_first_at_03, d_second_at_03] = _
    rw [List.foldl_cons, h1, List.foldl_cons, h2, List.foldl_nil]

lemma errors_foldl (key_by_name : List String) :
    ∀ (l : List (String × String)) (init : List String),
      l.foldl
        (fun errs ka =>
          if ka.1.length ≤ 1 then errs
          else if ka.1 ∈ key_by_name then errs
          else errs ++ [ka.2 ++ " == " ++ ka.1]) init =
      init ++ (l.filter
          (fun ka => decide (¬ka.1.length ≤ 1 ∧ ka.1 ∉ key_by_name))).map
        (fun ka => ka.2 ++ " == " ++ ka.1) := by
  intro l
  induction l with
  | nil => intro init; simp
  | cons ka l ih =>
    intro init
    rw [List.foldl_cons, List.filter_cons]
    by_cases h1 : ka.1.length ≤ 1
    · rw [if_pos h1]
      have hd : decide (¬ka.1.length ≤ 1 ∧ ka.1 ∉ key_by_name) = false := by
        simp [h1]
      rw [hd, ih]
      simp
    · rw [if_neg h1]
      by_cases h2 : ka.1 ∈ key_by_name
      · rw [if_pos h2]
        have hd : decide (¬ka.1.length ≤ 1 ∧ ka.1 ∉ key_by_name) = false := by
          simp [h1, h2]
        rw [hd, ih]
        simp
      · rw [if_neg h2]
        have hd : decide (¬ka.1.length ≤ 1 ∧ ka.1 ∉ key_by_name) = true := by
          simp [h1, h2]
        rw [hd, ih]
        simp [List.append_assoc]

lemma validate_keys_eq (key_by_name : List String) (a : Args) :
    validate_keys key_by_name a =
      (if offending_entries key_by_name a = [] then none
       else some (offending_entries key_by_name a)) := by
  unfold validate_keys offending_entries
  rw [errors_foldl, List.nil_append]
  by_cases h : ((keys_args a).filter
      (fun ka => decide (¬ka.1.length ≤ 1 ∧ ka.1 ∉ key_by_name))).map
    (fun ka => ka.2 ++ " == " ++ ka.1) = []
  · rw [if_pos h, h]
    rfl
  · rw [if_neg h]
    rw [if_pos (by simpa [List.length_pos] using h)]

/-- C9: for every configuration of the twelve key-binding options and every
set of recognized symbolic names, `validate_keys` returns exactly the
complete list of all offending entries (every bound name longer than one
character that is not recognized), or `None` when there are none; the gate
in `main` starts the engine iff that list is empty (otherwise the process
exits before the engine is constructed); and the list is empty iff every
bound name has length at most one or is recognized. -/
theorem c9_key_validation (key_by_name : List String) (a : Args) :
    (validate_keys key_by_name a =
      (if offending_entries key_by_name a = [] then none
       else some (offending_entries key_by_name a))) ∧
    (main_key_gate key_by_name a =
      (if offending_entries key_by_name a = [] then MainOutcome.engine_started
       else MainOutcome.invalid_config (offending_entries key_by_name a))) ∧
    (offending_entries key_by_name a = [] ↔
      ∀ ka ∈ keys_args a, ka.1.length ≤ 1 ∨ ka.1 ∈ key_by_name) := by
  refine ⟨validate_keys_eq key_by_name a, ?_, ?_⟩
  · unfold main_key_gate
    rw [validate_keys_eq key_by_name a]
    by_cases h : offending_entries key_by_name a = []
    · rw [if_pos h, if_pos h]
    · rw [if_neg h, if_neg h]
  · unfold offending_entries
    rw [List.map_eq_nil_iff, List.filter_eq_nil_iff]
    constructor
    · intro h ka hka
      have := h ka hka
      simp only [decide_eq_true_eq, not_and, not_not] at this
      by_cases h1 : ka.1.length ≤ 1
      · exact Or.inl h1
      · exact Or.inr (not_not.mp (fun hc => (by tauto : False)))
    · intro h ka hka
      simp only [decide_eq_true_eq, not_and, not_not]
      intro h1
      rcases h ka hka with h2 | h2
      · exact absurd h1 (not_not.mpr h2)
      · exact h2

/-- C10: the wrist-center formula used by the code (coordinate-wise
`min + (max - min) / 2`) equals the arithmetic mean of the two wrist
points, so the min/max implementation and the plain-midpoint definition
are equivalent. -/
theorem c10_wrist_center_equiv :
    ∀ l r : Point, center_minmax l r = wrist_center_spec l r := by
  intro l r
  unfold wrist_center_spec
  exact center_minmax_mean l r
